import Mathlib

/-!
Verification of the swing-screener analysis core (`src/swing/analysis`):
`levels.py`, `scorer.py`, `signals.py`, `indicators.py`, together with the
configuration constants of `src/swing/config.py`.

Modelling conventions:
* Python floats are modelled as exact rationals (`ℚ`).
* Python `round(x, n)` (round-half-to-even) is modelled exactly on `ℚ` by
  `pyRound`.
* Python `None` / missing (NaN) numeric values are modelled as `Option ℚ`.
* pandas `DataFrame`s are modelled either as lists of fully-typed rows
  (for `signals.py`, whose column set is fixed) or as association lists of
  named columns (for `indicators.py`, where column *presence* matters).
-/

namespace SwingScreener

/-- Round-half-to-even to an integer, the tie-breaking rule used by Python's
builtin `round`, stated on exact rationals. -/
def roundHalfEven (x : ℚ) : ℤ :=
  if x - (⌊x⌋ : ℚ) < 1/2 then ⌊x⌋
  else if 1/2 < x - (⌊x⌋ : ℚ) then ⌊x⌋ + 1
  else if ⌊x⌋ % 2 = 0 then ⌊x⌋ else ⌊x⌋ + 1

/-- Python `round(x, p)` on exact rationals: round-half-to-even at the `p`-th
decimal place. -/
def pyRound (p : ℕ) (x : ℚ) : ℚ := (roundHalfEven (x * 10 ^ p) : ℚ) / 10 ^ p

/-! Configuration constants from `src/swing/config.py`. -/

def MIN_SIGNALS_REQUIRED : ℕ := 2
def SUPPORT_PROXIMITY_PCT : ℚ := 2/100
def VOLUME_SURGE_FACTOR : ℚ := 3/2
def MIN_PRICE : ℚ := 50
def MIN_AVG_VOLUME : ℚ := 100000
def ATR_SL_MULTIPLIER : ℚ := 3/2
def MIN_RISK_REWARD : ℚ := 2
def RSI_OVERSOLD : ℚ := 40
def EMA_SHORT : ℕ := 20
def EMA_MID : ℕ := 50
def EMA_LONG : ℕ := 200
def RSI_PERIOD : ℕ := 14
def MACD_FAST : ℕ := 12
def MACD_SLOW : ℕ := 26
def MACD_SIGNAL : ℕ := 9
def ATR_PERIOD : ℕ := 14
def VOLUME_SMA_PERIOD : ℕ := 20

/-! ### levels.py -/

/-- View of the `signal_result` dict as read by `compute_levels`:
`latest.get("close")`, `latest.get("atr")`, `supports`, `resistances`. -/
structure LevelsInput where
  close : Option ℚ
  atr : Option ℚ
  supports : List ℚ
  resistances : List ℚ
deriving DecidableEq, Repr

/-- The plan dict returned by `compute_levels`. -/
structure Plan where
  entry : ℚ
  stop_loss : ℚ
  target_1 : ℚ
  target_2 : ℚ
  primary_target : ℚ
  risk : ℚ
  reward : ℚ
  risk_reward : ℚ
deriving DecidableEq, Repr

/-- Rounding applied to every field of the returned plan
(`round(..., 2)` on each value in the dict literal of `levels.py`). -/
def roundPlan (p : Plan) : Plan :=
  ⟨pyRound 2 p.entry, pyRound 2 p.stop_loss, pyRound 2 p.target_1,
    pyRound 2 p.target_2, pyRound 2 p.primary_target, pyRound 2 p.risk,
    pyRound 2 p.reward, pyRound 2 p.risk_reward⟩

/-- Entry selection of `compute_levels`: the close, snapped down to the
first support (scanning from the highest) that is below the close and
within 1% of it. -/
def entryOf (supports : List ℚ) (close : ℚ) : ℚ :=
  (supports.reverse.find? fun sup =>
    decide (sup < close) && decide ((close - sup) / sup ≤ 1/100)).getD close

/-- Stop-loss of `compute_levels`: ATR stop `entry - 1.5 * atr`, raised to
`0.995` times the nearest support strictly below `0.99 * entry` when such a
support exists (the tighter stop is the higher one). -/
def stopLossOf (supports : List ℚ) (entry atr : ℚ) : ℚ :=
  let atr_stop := entry - ATR_SL_MULTIPLIER * atr
  match (supports.filter fun s => decide (s < entry * (99/100))).getLast? with
  | some nearest_support => max atr_stop (nearest_support * (995/1000))
  | none => atr_stop

/-- Second target of `compute_levels`: the first resistance strictly above
`1.01 * entry`, or `1.02 * target_1` when there is none. -/
def target2Of (resistances : List ℚ) (entry target_1 : ℚ) : ℚ :=
  match (resistances.filter fun r => decide (entry * (101/100) < r)).head? with
  | some r => r
  | none => target_1 * (102/100)

/-- Primary target: the resistance target only when it beats `target_1`. -/
def primaryTargetOf (target_1 target_2 : ℚ) : ℚ :=
  if target_1 < target_2 then target_2 else target_1

/-- Python `reward / risk if risk > 0 else 0`. -/
def riskRewardOf (reward risk : ℚ) : ℚ := if 0 < risk then reward / risk else 0

/-- Body of `compute_levels` (`levels.py`) before the final per-field
rounding, with each Python line named by the helper definition above it;
`None` on missing close/atr, non-positive atr, non-positive risk, or a
risk-reward ratio below `MIN_RISK_REWARD`. -/
def compute_levels_raw (signal_result : LevelsInput) : Option Plan :=
  match signal_result.close, signal_result.atr with
  | some close, some atr =>
    if atr ≤ 0 then none
    else
      let entry := entryOf signal_result.supports close
      let stop_loss := stopLossOf signal_result.supports entry atr
      let risk := entry - stop_loss
      if risk ≤ 0 then none
      else
        let target_1 := entry + MIN_RISK_REWARD * risk
        let target_2 := target2Of signal_result.resistances entry target_1
        let primary_target := primaryTargetOf target_1 target_2
        let reward := primary_target - entry
        let risk_reward := riskRewardOf reward risk
        if risk_reward < MIN_RISK_REWARD then none
        else some ⟨entry, stop_loss, target_1, target_2, primary_target,
          risk, reward, risk_reward⟩
  | _, _ => none

/-- `compute_levels` of `levels.py`: `None`, or the plan with every field
rounded to 2 decimals. -/
def compute_levels (signal_result : LevelsInput) : Option Plan :=
  (compute_levels_raw signal_result).map roundPlan

/-- Concrete input for the C1 counterexample: a valid plan whose pre-rounding
risk `0.0015` rounds to the field value `0.0`. -/
def c1cexInput : LevelsInput := ⟨some 50, some (1/1000), [], [5051/100]⟩

/-- Scenario input of spec section 8: supports `[95.0]`, resistances `[110.0]`,
close `97.0`, atr `2.0`. -/
def c8input : LevelsInput := ⟨some 97, some 2, [95], [110]⟩

/-! ### scorer.py -/

/-- The five primary signals, the fixed key set of the `signals` dict. -/
structure Signals where
  ema_aligned : Bool
  rsi_recovery : Bool
  macd_crossover : Bool
  support_bounce : Bool
  volume_surge : Bool
deriving DecidableEq, Repr

def Signals.toList (s : Signals) : List Bool :=
  [s.ema_aligned, s.rsi_recovery, s.macd_crossover, s.support_bounce,
    s.volume_surge]

/-- Python `sum(signals.values())`: the number of true signals. -/
def Signals.count (s : Signals) : ℕ := (s.toList.filter id).length

/-- The `latest` snapshot dict produced by `detect_signals` and consumed by
`compute_score` and `compute_levels`: `close` and `volume` are always
present floats, every indicator value may be `None`. -/
structure LatestSnap where
  close : ℚ
  ema_20 : Option ℚ
  ema_50 : Option ℚ
  ema_200 : Option ℚ
  rsi : Option ℚ
  macd : Option ℚ
  macd_signal : Option ℚ
  atr : Option ℚ
  volume : ℚ
  volume_sma : Option ℚ
deriving DecidableEq, Repr

/-- The part of the `signal_result` dict read by `compute_score`:
`signal_result.get("signals")` and `signal_result.get("latest")`. -/
structure SignalView where
  signals : Signals
  latest : LatestSnap
deriving DecidableEq, Repr

/-- The `SCORE_WEIGHTS` dict of `config.py`. -/
structure Weights where
  signals : ℚ
  risk_reward : ℚ
  volume : ℚ
  trend : ℚ
  rsi : ℚ

def SCORE_WEIGHTS : Weights := ⟨30/100, 25/100, 15/100, 15/100, 15/100⟩

/-- One record of the factor breakdown built by `compute_score`. The
human-readable `reason` string of each record is presentation-only and is
not modelled. -/
structure Factor where
  name : String
  raw_score : ℚ
  weight : ℚ
  weighted : ℚ
deriving DecidableEq, Repr

structure ScoreBreakdown where
  total : ℚ
  factors : List Factor
deriving DecidableEq, Repr

/-- `compute_score` of `scorer.py`. Python truthiness of a float-or-None
(`if ema_20 and ...`) is modelled by matching the `Option` and testing
against `0`. -/
def compute_score (signal_result : SignalView) (levels : Plan) : ScoreBreakdown :=
  let signals := signal_result.signals
  let latest := signal_result.latest
  -- Factor 1: signal count
  let signal_count : ℕ := signals.count
  let signal_score : ℚ := ((signal_count : ℚ) / 5) * 100
  -- Factor 2: risk-reward quality
  let rr := levels.risk_reward
  let rr_score : ℚ := min 100 ((rr / 4) * 100)
  -- Factor 3: volume confirmation
  let volume := latest.volume
  let vol_score : ℚ :=
    match latest.volume_sma with
    | some volume_sma =>
      if volume_sma ≠ 0 ∧ 0 < volume_sma then
        min 100 ((volume / volume_sma) / (VOLUME_SURGE_FACTOR * 2) * 100)
      else 0
    | none => 0
  -- Factor 4: trend strength
  let close := latest.close
  let trend_score : ℚ :=
    (match latest.ema_20 with
      | some ema_20 => if ema_20 ≠ 0 ∧ ema_20 < close then 33 else 0
      | none => 0)
    + (match latest.ema_50, latest.ema_20 with
      | some ema_50, some ema_20 =>
        if ema_50 ≠ 0 ∧ ema_20 ≠ 0 ∧ ema_50 < ema_20 then 33 else 0
      | _, _ => 0)
    + (match latest.ema_200, latest.ema_50 with
      | some ema_200, some ema_50 =>
        if ema_200 ≠ 0 ∧ ema_50 ≠ 0 ∧ ema_200 < ema_50 then 34 else 0
      | _, _ => 0)
  -- Factor 5: RSI positioning (`latest.get("rsi", 50)` then `None -> 50`)
  let rsi := latest.rsi.getD 50
  let rsi_score : ℚ :=
    if 40 ≤ rsi ∧ rsi ≤ 60 then 100
    else if (30 ≤ rsi ∧ rsi < 40) ∨ (60 < rsi ∧ rsi ≤ 70) then 70
    else if rsi < 30 then 40
    else max 0 (100 - (rsi - 70) * 5)
  -- Weighted composite
  let factors : List Factor :=
    [⟨"Signal Count", pyRound 1 signal_score, SCORE_WEIGHTS.signals,
        pyRound 1 (signal_score * SCORE_WEIGHTS.signals)⟩,
      ⟨"Risk / Reward", pyRound 1 rr_score, SCORE_WEIGHTS.risk_reward,
        pyRound 1 (rr_score * SCORE_WEIGHTS.risk_reward)⟩,
      ⟨"Volume", pyRound 1 vol_score, SCORE_WEIGHTS.volume,
        pyRound 1 (vol_score * SCORE_WEIGHTS.volume)⟩,
      ⟨"Trend Strength", pyRound 1 trend_score, SCORE_WEIGHTS.trend,
        pyRound 1 (trend_score * SCORE_WEIGHTS.trend)⟩,
      ⟨"RSI Position", pyRound 1 rsi_score, SCORE_WEIGHTS.rsi,
        pyRound 1 (rsi_score * SCORE_WEIGHTS.rsi)⟩]
  let total := pyRound 1 (min 100 (max 0 (factors.map Factor.weighted).sum))
  ⟨total, factors⟩

/-- Concrete inputs for the C4 counterexample: per-factor weighted values
`0.04` each round to `0.0`, while the spec's formula rounds their sum up. -/
def c4cexView : SignalView :=
  ⟨⟨false, false, false, false, false⟩,
    { close := 100, ema_20 := none, ema_50 := none, ema_200 := none,
      rsi := some 90, macd := none, macd_signal := none, atr := none,
      volume := 80, volume_sma := some 10000 }⟩

def c4cexPlan : Plan := ⟨0, 0, 0, 0, 0, 0, 0, 4/625⟩

/-- Concrete inputs for the C4 witness, chosen so the five weighted factor
values are pairwise-permutable distinct numbers. -/
def c4wView : SignalView :=
  ⟨⟨true, true, true, false, false⟩,
    { close := 100, ema_20 := some 90, ema_50 := some 80, ema_200 := some 70,
      rsi := some 50, macd := none, macd_signal := none, atr := none,
      volume := 3000, volume_sma := some 1000 }⟩

def c4wPlan : Plan := ⟨0, 0, 0, 0, 0, 0, 0, 4⟩

/-! ### rank_candidates (scorer.py) -/

/-- A candidate record as seen by `rank_candidates`: only the sort key
`c.get("score", 0)` matters, plus an identity for stating stability. -/
structure Candidate where
  symbol : String
  score : Option ℚ
deriving DecidableEq, Repr

/-- Python sort key `c.get("score", 0)`. -/
def scoreKey (c : Candidate) : ℚ := c.score.getD 0

/-- Comparison used to model `sorted(candidates, key=..., reverse=True)`:
`a` may be placed before `b` when its key is at least `b`'s. -/
def rankRel (a b : Candidate) : Prop := scoreKey b ≤ scoreKey a

instance : DecidableRel rankRel := fun a b =>
  inferInstanceAs (Decidable (scoreKey b ≤ scoreKey a))

/-- `rank_candidates` of `scorer.py`: Python's `sorted` with
`key=lambda c: c.get("score", 0)` and `reverse=True` is a stable sort,
descending on the key; it is modelled by stable insertion sort. -/
def rank_candidates (candidates : List Candidate) : List Candidate :=
  candidates.insertionSort rankRel

instance : IsTotal Candidate rankRel :=
  ⟨fun a b => le_total (scoreKey b) (scoreKey a)⟩

instance : IsTrans Candidate rankRel :=
  ⟨fun _ _ _ hab hbc => le_trans hbc hab⟩

/-- Concrete candidates for the C5 tie-stability example. -/
def candA : Candidate := ⟨"A", some 50⟩
def candB : Candidate := ⟨"B", some 50⟩
def candC : Candidate := ⟨"C", some 70⟩

/-! ### indicators.py: level clustering and support/resistance -/

/-- Python `sorted` on a list of floats. -/
def sortAsc (l : List ℚ) : List ℚ := l.insertionSort (· ≤ ·)

/-- Arithmetic mean `sum(c) / len(c)` of a cluster. -/
def mean (c : List ℚ) : ℚ := c.sum / (c.length : ℚ)

/-- Loop of `_cluster_levels`: walk the sorted tail, merging `lvl` into the
current cluster when `abs(lvl - clusters[-1][-1]) / clusters[-1][-1]` is
within tolerance, otherwise starting a new cluster. The most recently added
element of the current cluster is threaded as `last` (the cluster list is
kept most-recent-first; the mean is order-independent). -/
def clusterGo (tolerance : ℚ) (cur : List ℚ) (last : ℚ) :
    List ℚ → List (List ℚ)
  | [] => [cur]
  | lvl :: rest =>
    if |lvl - last| / last ≤ tolerance then
      clusterGo tolerance (lvl :: cur) lvl rest
    else
      cur :: clusterGo tolerance [lvl] lvl rest

/-- `_cluster_levels` of `indicators.py`: sort, cluster by proximity to the
last added member, and replace each cluster by its arithmetic mean.
An empty input yields an empty output. -/
def cluster_levels (levels : List ℚ) (tolerance : ℚ) : List ℚ :=
  match sortAsc levels with
  | [] => []
  | l0 :: rest => (clusterGo tolerance [l0] l0 rest).map mean

/-- Python slice `xs[i - window : i + window + 1]`. -/
def sliceAround (xs : List ℚ) (i window : ℕ) : List ℚ :=
  (xs.drop (i - window)).take (2 * window + 1)

/-- Indices `range(window, len(xs) - window)` at which `xs[i]` equals the
minimum of the `2*window+1` slice centred on `i` (swing lows), mapped to
their values. -/
def swingLows (xs : List ℚ) (window : ℕ) : List ℚ :=
  ((List.range xs.length).filter fun i =>
    decide (window ≤ i) && decide (i + window < xs.length) &&
      (xs.get? i == (sliceAround xs i window).min?)).filterMap xs.get?

/-- Swing highs: same as `swingLows` with the maximum. -/
def swingHighs (xs : List ℚ) (window : ℕ) : List ℚ :=
  ((List.range xs.length).filter fun i =>
    decide (window ≤ i) && decide (i + window < xs.length) &&
      (xs.get? i == (sliceAround xs i window).max?)).filterMap xs.get?

/-! ### signals.py -/

/-- One row of the indicator-enriched OHLCV frame consumed by
`detect_signals`. `compute_indicators` is always run by the pipeline (or
by `detect_signals` itself) before the signal checks, so the indicator
columns are present, with per-row values possibly NaN (`none`). -/
structure Row where
  Open : ℚ
  High : ℚ
  Low : ℚ
  Close : ℚ
  Volume : ℚ
  EMA_20 : Option ℚ
  EMA_50 : Option ℚ
  EMA_200 : Option ℚ
  RSI : Option ℚ
  MACD : Option ℚ
  MACD_Signal : Option ℚ
  MACD_Hist : Option ℚ
  ATR : Option ℚ
  Volume_SMA : Option ℚ
deriving DecidableEq, Repr, Inhabited

/-- `find_support_resistance` of `indicators.py` (call it with
`lookback = 60` and `tolerance = 3/200` for the defaults). -/
def find_support_resistance (df : List Row) (lookback : ℕ) (tolerance : ℚ) :
    List ℚ × List ℚ :=
  let lookback := if df.length < lookback then max 20 (df.length - 5)
    else lookback
  let recent := df.drop (df.length - lookback)
  let highs := recent.map Row.High
  let lows := recent.map Row.Low
  let window := 5
  let supports_raw := swingLows lows window
  let resistances_raw := swingHighs highs window
  let supports := cluster_levels supports_raw tolerance
  let resistances := cluster_levels resistances_raw tolerance
  (sortAsc supports, sortAsc resistances)

/-- `df.iloc[-1]` on a frame known by the caller to be nonempty. -/
def latestRow (df : List Row) : Row := df.getLastD default

/-- The three hard filters of `detect_signals`. -/
structure Filters where
  price_above_200ema : Bool
  price_min : Bool
  volume_min : Bool
deriving DecidableEq, Repr

/-- Python `all(filters.values())`. -/
def Filters.allTrue (f : Filters) : Bool :=
  f.price_above_200ema && f.price_min && f.volume_min

/-- Filter phase of `detect_signals`: `price_above_200ema` (false when
EMA_200 is NaN), `price_min`, `volume_min` (false when Volume_SMA is NaN). -/
def filtersOf (latest : Row) : Filters :=
  { price_above_200ema :=
      match latest.EMA_200 with
      | some ema200 => decide (ema200 < latest.Close)
      | none => false
    price_min := decide (MIN_PRICE ≤ latest.Close)
    volume_min :=
      match latest.Volume_SMA with
      | some vsma => decide (MIN_AVG_VOLUME ≤ vsma)
      | none => false }

/-- Signal 1, EMA bullish alignment: `Close > EMA_20 > EMA_50`, both EMAs
present. -/
def ema_alignedOf (latest : Row) : Bool :=
  match latest.EMA_20, latest.EMA_50 with
  | some ema20, some ema50 =>
    decide (ema20 < latest.Close) && decide (ema50 < ema20)
  | _, _ => false

/-- Signal 2, RSI oversold recovery: RSI was at or below `RSI_OVERSOLD`
within the last 5 rows (NaN rows dropped), is now above it, and exceeds the
previous row's RSI (false when the previous RSI is NaN). -/
def rsi_recoveryOf (df : List Row) (latest prev : Row) : Bool :=
  match latest.RSI with
  | some latestRSI =>
    let recent_rsi := (df.map Row.RSI).drop (df.length - 5)
    let was_oversold := recent_rsi.any fun o =>
      match o with
      | some r => decide (r ≤ RSI_OVERSOLD)
      | none => false
    let now_above := decide (RSI_OVERSOLD < latestRSI)
    let rsi_rising :=
      match prev.RSI with
      | some prevRSI => decide (prevRSI < latestRSI)
      | none => false
    was_oversold && now_above && rsi_rising
  | none => false

/-- One iteration of the MACD crossover loop at `i = -k`: the guard
`abs(i) < len(df) and abs(i) - 1 < len(df)`, then a bullish cross between
`df.iloc[i-1]` and `df.iloc[i]` with all four values present. -/
def macdCrossAt (df : List Row) (k : ℕ) : Bool :=
  if decide (k < df.length) && decide (k - 1 < df.length) then
    match df.get? (df.length - k), df.get? (df.length - (k + 1)) with
    | some curr, some prev_row =>
      match curr.MACD, curr.MACD_Signal, prev_row.MACD, prev_row.MACD_Signal with
      | some cm, some cs, some pm, some ps =>
        decide (cs < cm) && decide (pm ≤ ps)
      | _, _, _, _ => false
    | _, _ => false
  else false

/-- Signal 3, MACD bullish crossover within the last 3 bars: the Python loop
runs `i = -3, -2, -1` and breaks at the first hit; its net value is the
disjunction of the three iterations, guarded on the latest MACD and signal
being present. -/
def macd_crossoverOf (df : List Row) (latest : Row) : Bool :=
  match latest.MACD, latest.MACD_Signal with
  | some _, some _ => macdCrossAt df 3 || macdCrossAt df 2 || macdCrossAt df 1
  | _, _ => false

/-- Signal 4, support bounce: scan supports from the highest down, stop at
the first one strictly below the close; it must lie within
`SUPPORT_PROXIMITY_PCT` of the close and the close must exceed the previous
close. -/
def support_bounceOf (supports : List ℚ) (latest prev : Row) : Bool :=
  match supports.reverse.find? (fun sup => decide (sup < latest.Close)) with
  | some sup =>
    decide ((latest.Close - sup) / sup ≤ SUPPORT_PROXIMITY_PCT) &&
      decide (prev.Close < latest.Close)
  | none => false

/-- Signal 5, volume surge: Volume_SMA present and positive, and the latest
volume at least `VOLUME_SURGE_FACTOR` times it. -/
def volume_surgeOf (latest : Row) : Bool :=
  match latest.Volume_SMA with
  | some vsma =>
    decide (0 < vsma) && decide (VOLUME_SURGE_FACTOR * vsma ≤ latest.Volume)
  | none => false

/-- The `latest` snapshot dict built at the end of `detect_signals`
(`float(...)` coercions are identities in the model). -/
def latestSnapOf (latest : Row) : LatestSnap :=
  { close := latest.Close, ema_20 := latest.EMA_20, ema_50 := latest.EMA_50,
    ema_200 := latest.EMA_200, rsi := latest.RSI, macd := latest.MACD,
    macd_signal := latest.MACD_Signal, atr := latest.ATR,
    volume := latest.Volume, volume_sma := latest.Volume_SMA }

/-- The three shapes of dict returned by `detect_signals`, distinguished by
their `reason` / key set. -/
inductive SignalOutcome where
  | insufficient_data : SignalOutcome
  | filter_failed (filters : Filters) : SignalOutcome
  | evaluated (passed : Bool) (signals : Signals) (signal_count : ℕ)
      (filters : Filters) (latest : LatestSnap)
      (supports resistances : List ℚ) : SignalOutcome
deriving DecidableEq, Repr

/-- `detect_signals` of `signals.py` on an indicator-enriched frame. -/
def detect_signals (df : List Row) : SignalOutcome :=
  if df.length < 50 then .insufficient_data
  else
    let sr := find_support_resistance df 60 (3/200)
    let supports := sr.1
    let resistances := sr.2
    let latest := latestRow df
    let prev := if 2 ≤ df.length then (df.get? (df.length - 2)).getD latest
      else latest
    let filters := filtersOf latest
    if filters.allTrue then
      let signals : Signals :=
        { ema_aligned := ema_alignedOf latest
          rsi_recovery := rsi_recoveryOf df latest prev
          macd_crossover := macd_crossoverOf df latest
          support_bounce := support_bounceOf supports latest prev
          volume_surge := volume_surgeOf latest }
      let signal_count := signals.count
      .evaluated (decide (MIN_SIGNALS_REQUIRED ≤ signal_count)) signals
        signal_count filters (latestSnapOf latest) supports resistances
    else .filter_failed filters

/-! ### indicators.py: compute_indicators over named columns

The numeric indicator recurrences live in the external `ta` library, which
is not part of this repository; they are modelled from the spec (section
4.1). What *is* code of this repository — which columns are read, in which
order, the copy-then-assign discipline, and the failure on a missing
column — is modelled from `indicators.py` itself. -/

/-- A pandas column: one value per row, possibly NaN. -/
abbrev Column := List (Option ℚ)

/-- Numeric values of a column. Raw OHLCV input columns are modelled as
fully present (the PriceSeries contract), so this is just the coercion
realizing that assumption. -/
def colVals (c : Column) : List ℚ := c.map (fun o => o.getD 0)

/-- A pandas DataFrame viewed as an association list of named columns. -/
structure RawFrame where
  cols : List (String × Column)
deriving DecidableEq, Repr

/-- Column lookup. -/
def lookupCols : List (String × Column) → String → Option Column
  | [], _ => none
  | (m, w) :: rest, n => if m = n then some w else lookupCols rest n

/-- Column update in place, appending when absent (`df[name] = series`). -/
def setCols : List (String × Column) → String → Column → List (String × Column)
  | [], n, v => [(n, v)]
  | (m, w) :: rest, n, v =>
    if m = n then (n, v) :: rest else (m, w) :: setCols rest n v

def RawFrame.col? (f : RawFrame) (n : String) : Option Column :=
  lookupCols f.cols n

def RawFrame.set (f : RawFrame) (n : String) (v : Column) : RawFrame :=
  ⟨setCols f.cols n v⟩

/-- The exception pandas raises for a missing column. -/
inductive PyErr where
  | KeyError (col : String) : PyErr
deriving DecidableEq, Repr

/-- Column access `df[name]`, raising `KeyError` when absent. -/
def RawFrame.getE (f : RawFrame) (n : String) : Except PyErr Column :=
  match f.col? n with
  | some c => .ok c
  | none => .error (.KeyError n)

/-- Modelled from the spec: exponential moving average recurrence
`e = alpha * x + (1 - alpha) * e_prev` from a seed. -/
def emaFrom (alpha : ℚ) (acc : ℚ) : List ℚ → List ℚ
  | [] => []
  | x :: rest =>
    let e := alpha * x + (1 - alpha) * acc
    e :: emaFrom alpha e rest

/-- Modelled from the spec: EMA with smoothing `2/(window+1)` seeded by the
simple moving average of the first `window` bars; absent during warm-up.
The `ta` library computing this is not part of the repository. -/
def emaSeq (window : ℕ) (xs : List ℚ) : List (Option ℚ) :=
  if window = 0 ∨ xs.length < window then xs.map fun _ => none
  else
    let alpha : ℚ := 2 / ((window : ℚ) + 1)
    let seed := (xs.take window).sum / (window : ℚ)
    List.replicate (window - 1) none ++
      (some seed :: (emaFrom alpha seed (xs.drop window)).map some)

/-- Modelled from the spec: Wilder smoothing
`a = (a_prev * (window - 1) + y) / window`. -/
def wilderFrom (window : ℚ) (acc : ℚ) : List ℚ → List ℚ
  | [] => []
  | y :: rest =>
    let a := (acc * (window - 1) + y) / window
    a :: wilderFrom window a rest

/-- Modelled from the spec: Wilder-smoothed average seeded by the simple
average of the first `window` values; absent during warm-up. -/
def wilderSeq (window : ℕ) (ys : List ℚ) : List (Option ℚ) :=
  if window = 0 ∨ ys.length < window then ys.map fun _ => none
  else
    let seed := (ys.take window).sum / (window : ℚ)
    List.replicate (window - 1) none ++
      (some seed :: (wilderFrom (window : ℚ) seed (ys.drop window)).map some)

/-- Consecutive differences `xs[i+1] - xs[i]`. -/
def deltas (xs : List ℚ) : List ℚ :=
  match xs with
  | [] => []
  | _ :: rest => List.zipWith (fun b a => b - a) rest xs

/-- Modelled from the spec: RSI as Wilder's smoothing of average gain and
loss over `window` bars (`ta.momentum.RSIIndicator` is not part of the
repository). -/
def rsiSeq (window : ℕ) (closes : List ℚ) : List (Option ℚ) :=
  match closes with
  | [] => []
  | _ :: _ =>
    let ds := deltas closes
    let gains := ds.map fun d => max d 0
    let losses := ds.map fun d => max (-d) 0
    none :: List.zipWith (fun ag al =>
        match ag, al with
        | some g, some l =>
          some (if l = 0 then 100 else 100 - 100 / (1 + g / l))
        | _, _ => none)
      (wilderSeq window gains) (wilderSeq window losses)

/-- EMA applied to a series with leading absent values (the MACD signal
line): the present suffix is smoothed, the leading gap is preserved. -/
def emaOptSeq (window : ℕ) (xs : List (Option ℚ)) : List (Option ℚ) :=
  let vals := xs.filterMap id
  List.replicate (xs.length - vals.length) none ++ emaSeq window vals

/-- Pointwise difference of two optional series. -/
def subOptSeq (xs ys : List (Option ℚ)) : List (Option ℚ) :=
  List.zipWith (fun a b =>
    match a, b with
    | some x, some y => some (x - y)
    | _, _ => none) xs ys

/-- Modelled from the spec: MACD line, signal line and histogram
(`ta.trend.MACD` is not part of the repository). -/
def macdSeq (closes : List ℚ) :
    List (Option ℚ) × List (Option ℚ) × List (Option ℚ) :=
  let macd_line := subOptSeq (emaSeq MACD_FAST closes) (emaSeq MACD_SLOW closes)
  let signal_line := emaOptSeq MACD_SIGNAL macd_line
  (macd_line, signal_line, subOptSeq macd_line signal_line)

/-- True range of each bar: `max(high-low, |high-prev_close|,
|low-prev_close|)`, plain `high-low` on the first bar. -/
def trSeq (highs lows closes : List ℚ) : List ℚ :=
  match highs, lows with
  | h0 :: _, l0 :: _ =>
    (h0 - l0) :: List.zipWith (fun hl pc =>
        max (hl.1 - hl.2) (max |hl.1 - pc| |hl.2 - pc|))
      (List.zip highs.tail lows.tail) closes
  | _, _ => []

/-- Modelled from the spec: ATR as the Wilder-smoothed average of the true
range (`ta.volatility.AverageTrueRange` is not part of the repository). -/
def atrSeq (window : ℕ) (highs lows closes : List ℚ) : List (Option ℚ) :=
  wilderSeq window (trSeq highs lows closes)

/-- Rolling simple mean over `window` values, absent until the window is
full (`Series.rolling(window).mean()`). -/
def rollingMean (window : ℕ) (xs : List ℚ) : List (Option ℚ) :=
  (List.range xs.length).map fun i =>
    if i + 1 < window then none
    else some (((xs.drop (i + 1 - window)).take window).sum / (window : ℚ))

/-- `compute_indicators` of `indicators.py` as a value-level function: the
statements of the body in order, each `df[...] = ...` assignment applied to
the running copy, each `df[...]` read raising `KeyError` when the column is
absent. Columns are read in source order: `Close` (EMA/RSI/MACD lines),
then `High`, `Low` (ATR line), then `Volume`. The `Open` column is never
read. -/
def compute_indicators (df0 : RawFrame) : Except PyErr RawFrame :=
  -- `df = df.copy()`
  let df := df0
  match df.col? "Close" with
  | none => .error (.KeyError "Close")
  | some closeCol =>
    let close := colVals closeCol
    let df := df.set "EMA_20" (emaSeq EMA_SHORT close)
    let df := df.set "EMA_50" (emaSeq EMA_MID close)
    let df := df.set "EMA_200" (emaSeq EMA_LONG close)
    let df := df.set "RSI" (rsiSeq RSI_PERIOD close)
    let m := macdSeq close
    let df := df.set "MACD" m.1
    let df := df.set "MACD_Signal" m.2.1
    let df := df.set "MACD_Hist" m.2.2
    match df.col? "High" with
    | none => .error (.KeyError "High")
    | some highCol =>
      match df.col? "Low" with
      | none => .error (.KeyError "Low")
      | some lowCol =>
        let df := df.set "ATR"
          (atrSeq ATR_PERIOD (colVals highCol) (colVals lowCol) close)
        match df.col? "Volume" with
        | none => .error (.KeyError "Volume")
        | some volCol =>
          let df := df.set "Volume_SMA"
            (rollingMean VOLUME_SMA_PERIOD (colVals volCol))
          .ok df

/-- Concrete frame for the C3 counterexample: `High`, `Low`, `Close` and
`Volume` present but no `Open` column. -/
def noOpenFrame : RawFrame :=
  ⟨[("High", [some 101]), ("Low", [some 99]), ("Close", [some 100]),
    ("Volume", [some 100000])]⟩

/-! ### An object store, to state what `compute_indicators` mutates.

Python frames are heap objects; `df.copy()` allocates a fresh one and
`df[...] = ...` mutates in place. To state the frame property of
`compute_indicators` (the caller's object is untouched) the heap is made
explicit: a store of frame values addressed by references. -/

/-- The heap: frame objects addressed by position. -/
abbrev Store := List RawFrame

/-- Dereference (frames read through valid references only). -/
def Store.read (s : Store) (r : ℕ) : RawFrame := (s[r]?).getD ⟨[]⟩

/-- In-place mutation of the object at `r`. -/
def Store.write (s : Store) (r : ℕ) (f : RawFrame) : Store := s.set r f

/-- Allocation of a fresh object, returning its reference. -/
def Store.alloc (s : Store) (f : RawFrame) : Store × ℕ := (s ++ [f], s.length)

/-- `compute_indicators` with the heap explicit: `df = df.copy()` allocates
a fresh object holding the caller's value and rebinds the local name `df`
to it; every subsequent `df[...] = ...` statement mutates that copy, and
the function returns a reference to it. Statement-for-statement the same
body as `compute_indicators`. -/
def compute_indicators_st (s0 : Store) (dfRef : ℕ) :
    Except PyErr (Store × ℕ) :=
  -- `df = df.copy()`
  let ac := Store.alloc s0 (Store.read s0 dfRef)
  let s := ac.1
  let c := ac.2
  match (Store.read s c).col? "Close" with
  | none => .error (.KeyError "Close")
  | some closeCol =>
    let close := colVals closeCol
    let s := Store.write s c ((Store.read s c).set "EMA_20" (emaSeq EMA_SHORT close))
    let s := Store.write s c ((Store.read s c).set "EMA_50" (emaSeq EMA_MID close))
    let s := Store.write s c ((Store.read s c).set "EMA_200" (emaSeq EMA_LONG close))
    let s := Store.write s c ((Store.read s c).set "RSI" (rsiSeq RSI_PERIOD close))
    let m := macdSeq close
    let s := Store.write s c ((Store.read s c).set "MACD" m.1)
    let s := Store.write s c ((Store.read s c).set "MACD_Signal" m.2.1)
    let s := Store.write s c ((Store.read s c).set "MACD_Hist" m.2.2)
    match (Store.read s c).col? "High" with
    | none => .error (.KeyError "High")
    | some highCol =>
      match (Store.read s c).col? "Low" with
      | none => .error (.KeyError "Low")
      | some lowCol =>
        let s := Store.write s c ((Store.read s c).set "ATR"
          (atrSeq ATR_PERIOD (colVals highCol) (colVals lowCol) close))
        match (Store.read s c).col? "Volume" with
        | none => .error (.KeyError "Volume")
        | some volCol =>
          let s := Store.write s c ((Store.read s c).set "Volume_SMA"
            (rollingMean VOLUME_SMA_PERIOD (colVals volCol)))
          .ok (s, c)

/-- Concrete frame with all five OHLCV columns, for witnesses. -/
def fullFrame : RawFrame :=
  ⟨[("Open", [some 100, some 101]), ("High", [some 102, some 103]),
    ("Low", [some 98, some 99]), ("Close", [some 101, some 102]),
    ("Volume", [some 100000, some 120000])]⟩

/-- C9 result store of the concrete witness run. -/
def c9resStore : Store :=
  match compute_indicators_st [fullFrame] 0 with
  | .ok (s', _) => s'
  | .error _ => []

/-- C9 result reference of the concrete witness run. -/
def c9resRef : ℕ :=
  match compute_indicators_st [fullFrame] 0 with
  | .ok (_, r') => r'
  | .error _ => 0

/-- Concrete row for the C2 witness: positive prices but a close below
`MIN_PRICE`, no indicator values. -/
def c2row : Row :=
  { Open := 10, High := 11, Low := 9, Close := 10, Volume := 1000,
    EMA_20 := none, EMA_50 := none, EMA_200 := none, RSI := none,
    MACD := none, MACD_Signal := none, MACD_Hist := none, ATR := none,
    Volume_SMA := none }

/-- Frame of 50 identical sub-minimum-price rows for the C2 witness. -/
def c2df : List Row := List.replicate 50 c2row

/-- Frame for the C7 witness: 48 bare rows, then a bullish MACD cross on
the last bar. -/
def c7df : List Row :=
  List.replicate 48 c2row ++
    [{ c2row with MACD := some 1, MACD_Signal := some 2 },
      { c2row with MACD := some 3, MACD_Signal := some 2 }]

end SwingScreener

namespace SwingScreener

attribute [local semireducible] Rat.mul Rat.add Rat.sub Rat.inv Rat.ofScientific

/-! ## Helper lemmas -/

theorem roundHalfEven_mono {x y : ℚ} (h : x ≤ y) :
    roundHalfEven x ≤ roundHalfEven y := by
  unfold roundHalfEven
  have hf : ⌊x⌋ ≤ ⌊y⌋ := Int.floor_le_floor h
  rcases eq_or_lt_of_le hf with heq | hlt
  · have hxy : x - (⌊x⌋ : ℚ) ≤ y - (⌊y⌋ : ℚ) := by
      rw [← heq]; linarith
    rw [← heq]
    rw [← heq] at hxy
    split_ifs <;> first | omega | linarith
  · split_ifs <;> omega

theorem pyRound_mono (p : ℕ) {x y : ℚ} (h : x ≤ y) :
    pyRound p x ≤ pyRound p y := by
  unfold pyRound
  have hp : (0 : ℚ) < 10 ^ p := by positivity
  have hr := roundHalfEven_mono (mul_le_mul_of_nonneg_right h (le_of_lt hp))
  exact (div_le_div_iff_of_pos_right hp).mpr (by exact_mod_cast hr)

theorem compute_levels_raw_gate (sr : LevelsInput) (p : Plan)
    (h : compute_levels_raw sr = some p) :
    MIN_RISK_REWARD ≤ p.risk_reward ∧ 0 < p.risk ∧ 0 < p.reward := by
  unfold compute_levels_raw at h
  split at h
  rotate_left
  · exact Option.noConfusion h
  dsimp only at h
  split at h
  · exact Option.noConfusion h
  rename_i hatr
  split at h
  · exact Option.noConfusion h
  rename_i hrisk
  split at h
  · exact Option.noConfusion h
  rename_i hgate
  have hp := Option.some.inj h
  subst hp
  dsimp only
  have hr := lt_of_not_le hrisk
  unfold riskRewardOf at hgate ⊢
  rw [if_pos hr] at hgate ⊢
  have hrr := le_of_not_lt hgate
  refine ⟨hrr, hr, ?_⟩
  have h2r := (le_div_iff₀ hr).mp hrr
  have hM : (0:ℚ) < MIN_RISK_REWARD := by norm_num [MIN_RISK_REWARD]
  calc (0:ℚ) < MIN_RISK_REWARD * _ := mul_pos hM hr
    _ ≤ _ := h2r

/-! ## Claims -/

/-- C1 (amended): `compute_levels` returns no plan, or a plan whose
pre-rounding risk and reward are strictly positive and whose pre-rounding
risk-reward ratio is at least `MIN_RISK_REWARD`; in the returned (rounded)
record the `risk_reward` field is still at least `MIN_RISK_REWARD`, but the
`risk` and `reward` fields are only nonnegative — rounding to 2 decimals
can collapse a positive value below `0.005` to `0.0`. -/
theorem compute_levels_admission_gate :
    (∀ sr p, compute_levels_raw sr = some p →
      MIN_RISK_REWARD ≤ p.risk_reward ∧ 0 < p.risk ∧ 0 < p.reward) ∧
    (∀ sr p, compute_levels sr = some p →
      MIN_RISK_REWARD ≤ p.risk_reward ∧ 0 ≤ p.risk ∧ 0 ≤ p.reward) := by
  refine ⟨compute_levels_raw_gate, ?_⟩
  intro sr p h
  unfold compute_levels at h
  obtain ⟨q, hq, hp⟩ := Option.map_eq_some'.mp h
  obtain ⟨h1, h2, h3⟩ := compute_levels_raw_gate sr q hq
  subst hp
  unfold roundPlan
  refine ⟨?_, ?_, ?_⟩
  · have : pyRound 2 MIN_RISK_REWARD ≤ pyRound 2 q.risk_reward := pyRound_mono 2 h1
    calc MIN_RISK_REWARD = pyRound 2 MIN_RISK_REWARD := by decide
      _ ≤ _ := this
  · have : pyRound 2 0 ≤ pyRound 2 q.risk := pyRound_mono 2 (le_of_lt h2)
    calc (0:ℚ) = pyRound 2 0 := by decide
      _ ≤ _ := this
  · have : pyRound 2 0 ≤ pyRound 2 q.reward := pyRound_mono 2 (le_of_lt h3)
    calc (0:ℚ) = pyRound 2 0 := by decide
      _ ≤ _ := this

/-- C1 witness: the section-8 scenario input yields a plan, to which the
gate theorem applies with every hypothesis discharged concretely. -/
theorem compute_levels_admission_gate_witness :
    (MIN_RISK_REWARD ≤ (520/99 : ℚ) ∧ (0:ℚ) < 99/40 ∧ (0:ℚ) < 13) ∧
    (MIN_RISK_REWARD ≤ (21/4 : ℚ) ∧ (0:ℚ) ≤ 62/25 ∧ (0:ℚ) ≤ 13) := by
  constructor
  · exact compute_levels_admission_gate.1 c8input
      ⟨97, 3781/40, 2039/20, 110, 110, 99/40, 13, 520/99⟩ (by decide)
  · exact compute_levels_admission_gate.2 c8input
      ⟨97, 2363/25, 2039/20, 110, 110, 62/25, 13, 21/4⟩ (by decide)

/-- C1 counterexample: for close `50.0`, atr `0.001`, no supports and one
resistance at `50.51`, `compute_levels` returns a plan (risk-reward 340),
yet the returned `risk` field is `0.0` — the rounding of the positive risk
`0.0015` — so the claim that every returned plan has `risk > 0` is false. -/
theorem compute_levels_risk_field_zero_cex :
    ∃ p, compute_levels c1cexInput = some p ∧ ¬ 0 < p.risk := by
  refine ⟨⟨50, 50, 50, 5051/100, 5051/100, 0, 51/100, 340⟩, by decide, by decide⟩

/-- C4 (amended): the returned total is the clamp to `[0, 100]`, rounded to
1 decimal, of the sum of the five factors' `weighted` fields — where each
`weighted` field is `round(raw_score * weight, 1)`, so the total is not in
general the rounding of `sum(raw_score * weight)` itself; the total always
lies in `[0, 100]` and is invariant under any reordering of the five
factor contributions. -/
theorem compute_score_total_spec (sv : SignalView) (levels : Plan) :
    (compute_score sv levels).total =
      pyRound 1 (min 100 (max 0
        (((compute_score sv levels).factors.map Factor.weighted).sum))) ∧
    0 ≤ (compute_score sv levels).total ∧
    (compute_score sv levels).total ≤ 100 ∧
    ∀ l : List ℚ,
      l.Perm ((compute_score sv levels).factors.map Factor.weighted) →
        pyRound 1 (min 100 (max 0 l.sum)) = (compute_score sv levels).total := by
  have htot : (compute_score sv levels).total =
      pyRound 1 (min 100 (max 0
        (((compute_score sv levels).factors.map Factor.weighted).sum))) := rfl
  refine ⟨htot, ?_, ?_, ?_⟩
  · rw [htot]
    have h0 : (0:ℚ) ≤ min 100 (max 0
        (((compute_score sv levels).factors.map Factor.weighted).sum)) :=
      le_min (by norm_num) (le_max_left 0 _)
    calc (0:ℚ) = pyRound 1 0 := by decide
      _ ≤ _ := pyRound_mono 1 h0
  · rw [htot]
    have h100 : min 100 (max 0
        (((compute_score sv levels).factors.map Factor.weighted).sum)) ≤ 100 :=
      min_le_left _ _
    calc pyRound 1 _ ≤ pyRound 1 100 := pyRound_mono 1 h100
      _ = 100 := by decide
  · intro l hl
    rw [hl.sum_eq]
    exact htot.symm

/-- C4 witness: the total-formula theorem applied at a concrete input whose
weighted factor values are `[18, 25, 15, 15, 15]`, with the reordered list
`[25, 15, 18, 15, 15]` as the concrete permutation. -/
theorem compute_score_total_spec_witness :
    pyRound 1 (min 100 (max 0 ([25, 15, 18, 15, 15] : List ℚ).sum)) =
      (compute_score c4wView c4wPlan).total := by
  exact (compute_score_total_spec c4wView c4wPlan).2.2.2
    [25, 15, 18, 15, 15] (by decide)

/-- C4 counterexample: at a concrete input the returned total (`0.0`)
differs from the claimed formula — the clamp-and-round of the sum of
`raw_score * weight` over the returned factors (`0.1`) — because the code
sums the per-factor *rounded* `weighted` values instead. -/
theorem compute_score_claim_cex :
    (compute_score c4cexView c4cexPlan).total ≠
      pyRound 1 (min 100 (max 0
        (((compute_score c4cexView c4cexPlan).factors.map
          fun f => f.raw_score * f.weight).sum))) := by decide

theorem orderedInsert_filter_key (x : Candidate) (l : List Candidate) (q : ℚ) :
    (l.orderedInsert rankRel x).filter (fun c => decide (scoreKey c = q)) =
      if scoreKey x = q then
        x :: l.filter (fun c => decide (scoreKey c = q))
      else l.filter (fun c => decide (scoreKey c = q)) := by
  induction l with
  | nil =>
    by_cases hx : scoreKey x = q <;>
      simp [List.orderedInsert, List.filter, hx]
  | cons y ys ih =>
    unfold List.orderedInsert
    by_cases hr : rankRel x y
    · rw [if_pos hr]
      by_cases hx : scoreKey x = q <;>
        by_cases hy : scoreKey y = q <;>
        simp [List.filter_cons, hx, hy]
    · rw [if_neg hr]
      by_cases hy : scoreKey y = q
      · have hxq : ¬ scoreKey x = q := by
          intro hx
          exact hr (le_of_eq (hy.trans hx.symm))
        simp [List.filter_cons, hy, hxq, ih]
      · by_cases hx : scoreKey x = q <;>
          simp [List.filter_cons, hy, hx, ih]

theorem rank_candidates_filter (l : List Candidate) (q : ℚ) :
    (rank_candidates l).filter (fun c => decide (scoreKey c = q)) =
      l.filter (fun c => decide (scoreKey c = q)) := by
  unfold rank_candidates
  induction l with
  | nil => rfl
  | cons a l ih =>
    show ((l.insertionSort rankRel).orderedInsert rankRel a).filter _ = _
    rw [orderedInsert_filter_key]
    by_cases ha : scoreKey a = q <;> simp [List.filter_cons, ha, ih]

/-- C5: `rank_candidates` permutes its input into an order that is
descending on the score key `c.get("score", 0)`, and it is stable: for
every score value, the candidates carrying that score appear in the output
exactly in their input order; on the input `[A(50), B(50), C(70)]` the
output is `[C, A, B]`. -/
theorem rank_candidates_spec :
    (∀ l : List Candidate,
      (rank_candidates l).Perm l ∧
      (rank_candidates l).Sorted rankRel ∧
      ∀ q : ℚ,
        (rank_candidates l).filter (fun c => decide (scoreKey c = q)) =
          l.filter (fun c => decide (scoreKey c = q))) ∧
    rank_candidates [candA, candB, candC] = [candC, candA, candB] := by
  refine ⟨fun l => ⟨List.perm_insertionSort rankRel l,
    List.sorted_insertionSort rankRel l, fun q => rank_candidates_filter l q⟩,
    by decide⟩

theorem mean_mem_bounds {c : List ℚ} {lo hi : ℚ} (hne : c ≠ [])
    (h : ∀ x ∈ c, lo ≤ x ∧ x ≤ hi) : lo ≤ mean c ∧ mean c ≤ hi := by
  have hn : (0 : ℚ) < (c.length : ℚ) := by
    exact_mod_cast List.length_pos.mpr hne
  have hlow : (c.length : ℚ) * lo ≤ c.sum := by
    have := List.card_nsmul_le_sum c lo (fun x hx => (h x hx).1)
    simpa [nsmul_eq_mul] using this
  have hhigh : c.sum ≤ (c.length : ℚ) * hi := by
    have := List.sum_le_card_nsmul c hi (fun x hx => (h x hx).2)
    simpa [nsmul_eq_mul] using this
  constructor
  · rw [mean, le_div_iff₀ hn]
    linarith [hlow]
  · rw [mean, div_le_iff₀ hn]
    linarith [hhigh]

theorem clusterGo_chain (tol : ℚ) (rest : List ℚ) :
    ∀ (cur : List ℚ) (last lo : ℚ), 0 < lo → cur ≠ [] →
      (∀ x ∈ cur, lo ≤ x ∧ x ≤ last) →
      rest.Sorted (· ≤ ·) → (∀ x ∈ rest, last ≤ x) →
      ∃ m0 ms, (clusterGo tol cur last rest).map mean = m0 :: ms ∧
        lo ≤ m0 ∧ (∀ m ∈ m0 :: ms, 0 < m) ∧
        (m0 :: ms).Chain' (fun a b => a * (1 + tol) < b ∧ a ≤ b) := by
  induction rest with
  | nil =>
    intro cur last lo hlo hcur hbounds _ _
    obtain ⟨hm1, _⟩ := mean_mem_bounds hcur hbounds
    exact ⟨mean cur, [], rfl, hm1,
      by intro m hm; rw [List.mem_singleton] at hm; subst hm; linarith,
      List.chain'_singleton _⟩
  | cons lvl rest' ih =>
    intro cur last lo hlo hcur hbounds hsorted hge
    obtain ⟨hrs, hrge⟩ :
        (∀ x ∈ rest', lvl ≤ x) ∧ rest'.Sorted (· ≤ ·) :=
      List.sorted_cons.mp hsorted
    have hlast_lvl : last ≤ lvl := hge lvl (List.mem_cons_self _ _)
    obtain ⟨y, hy⟩ := List.exists_mem_of_ne_nil cur hcur
    have hlo_last : lo ≤ last := le_trans (hbounds y hy).1 (hbounds y hy).2
    have hlast_pos : 0 < last := lt_of_lt_of_le hlo hlo_last
    have hlvl_pos : 0 < lvl := lt_of_lt_of_le hlast_pos hlast_lvl
    rw [clusterGo]
    by_cases hm : |lvl - last| / last ≤ tol
    · rw [if_pos hm]
      refine ih (lvl :: cur) lvl lo hlo (List.cons_ne_nil _ _) ?_ hrge hrs
      intro x hx
      rcases List.mem_cons.mp hx with rfl | hx'
      · exact ⟨le_trans hlo_last hlast_lvl, le_refl _⟩
      · exact ⟨(hbounds x hx').1, le_trans (hbounds x hx').2 hlast_lvl⟩
    · rw [if_neg hm]
      have habs : |lvl - last| = lvl - last := abs_of_nonneg (by linarith)
      rw [habs] at hm
      have hsep : last * (1 + tol) < lvl := by
        have h1 : tol < (lvl - last) / last := lt_of_not_le hm
        have h2 := (lt_div_iff₀ hlast_pos).mp h1
        nlinarith
      obtain ⟨m0', ms', heq', hlo', hpos', hchain'⟩ :=
        ih [lvl] lvl lvl hlvl_pos (List.cons_ne_nil _ _)
          (by intro x hx; rw [List.mem_singleton] at hx; subst hx
              exact ⟨le_refl _, le_refl _⟩) hrge hrs
      obtain ⟨hmean_lo, hmean_last⟩ := mean_mem_bounds hcur hbounds
      have hmean_pos : 0 < mean cur := lt_of_lt_of_le hlo hmean_lo
      refine ⟨mean cur, m0' :: ms', ?_, hmean_lo, ?_, ?_⟩
      · rw [List.map_cons, heq']
      · intro m hmem
        rcases List.mem_cons.mp hmem with rfl | hmem'
        · exact hmean_pos
        · exact hpos' m hmem'
      · rw [List.chain'_cons]
        refine ⟨⟨?_, ?_⟩, hchain'⟩
        · rcases le_or_lt 0 (1 + tol) with h1t | h1t
          · calc mean cur * (1 + tol) ≤ last * (1 + tol) :=
                mul_le_mul_of_nonneg_right hmean_last h1t
              _ < lvl := hsep
              _ ≤ m0' := hlo'
          · have hneg : mean cur * (1 + tol) < 0 :=
              mul_neg_of_pos_of_neg hmean_pos h1t
            have hm0pos : 0 < m0' := hpos' m0' (List.mem_cons_self _ _)
            linarith
        · exact le_trans hmean_last (le_trans hlast_lvl hlo')

theorem sortAsc_sorted (l : List ℚ) : (sortAsc l).Sorted (· ≤ ·) :=
  List.sorted_insertionSort _ l

theorem sortAsc_perm (l : List ℚ) : (sortAsc l).Perm l :=
  List.perm_insertionSort _ l

theorem cluster_levels_sep (levels : List ℚ) (tol : ℚ)
    (hpos : ∀ x ∈ levels, 0 < x) :
    (∀ m ∈ cluster_levels levels tol, 0 < m) ∧
    (cluster_levels levels tol).Chain'
      (fun a b => a * (1 + tol) < b ∧ a ≤ b) ∧
    (cluster_levels levels tol = [] ↔ levels = []) := by
  unfold cluster_levels
  rcases hs : sortAsc levels with _ | ⟨l0, rest⟩
  · have hnil : levels = [] := by
      have hp := sortAsc_perm levels
      rw [hs] at hp
      exact (hp.symm).eq_nil
    simp [hnil]
  · have hsort := sortAsc_sorted levels
    rw [hs] at hsort
    have hmem : ∀ x ∈ l0 :: rest, 0 < x := by
      intro x hx
      exact hpos x ((sortAsc_perm levels).subset (hs ▸ hx))
    obtain ⟨hrge, hrs⟩ := List.sorted_cons.mp hsort
    obtain ⟨m0, ms, heq, _, hposm, hchain⟩ :=
      clusterGo_chain tol rest [l0] l0 l0 (hmem l0 (List.mem_cons_self _ _))
        (List.cons_ne_nil _ _)
        (by intro x hx; rw [List.mem_singleton] at hx; subst hx
            exact ⟨le_refl _, le_refl _⟩) hrs hrge
    dsimp only
    rw [heq]
    refine ⟨hposm, hchain, ?_⟩
    constructor
    · intro hcontra
      exact absurd hcontra (List.cons_ne_nil _ _)
    · intro hcontra
      rw [hcontra] at hs
      exact absurd hs.symm (List.cons_ne_nil _ _)

theorem chain_imp_of_pos {R S : ℚ → ℚ → Prop}
    (h : ∀ a b, 0 < a → 0 < b → R a b → S a b) :
    ∀ {l : List ℚ}, (∀ m ∈ l, 0 < m) → l.Chain' R → l.Chain' S := by
  intro l
  induction l with
  | nil => intro _ _; exact List.chain'_nil
  | cons a l ih =>
    intro hpos hc
    cases l with
    | nil => exact List.chain'_singleton _
    | cons b l' =>
      rw [List.chain'_cons] at hc ⊢
      refine ⟨h a b (hpos a (List.mem_cons_self _ _))
        (hpos b (List.mem_cons_of_mem _ (List.mem_cons_self _ _))) hc.1,
        ih (fun m hm => hpos m (List.mem_cons_of_mem a hm)) hc.2⟩

theorem clusterGo_singletons_nonneg {tol : ℚ} (htol : 0 ≤ tol) :
    ∀ (rest : List ℚ) (x : ℚ), 0 < x → (∀ m ∈ rest, 0 < m) →
      (x :: rest).Chain' (fun a b => a * (1 + tol) < b ∧ a ≤ b) →
      clusterGo tol [x] x rest = (x :: rest).map (fun m => [m]) := by
  intro rest
  induction rest with
  | nil => intro x _ _ _; rfl
  | cons y rest' ih =>
    intro x hx hpos hchain
    rw [List.chain'_cons] at hchain
    obtain ⟨⟨hxy, _⟩, hchain'⟩ := hchain
    have hxl : x ≤ x * (1 + tol) := by nlinarith
    have hylt : x < y := lt_of_le_of_lt hxl hxy
    rw [clusterGo, if_neg ?_]
    · rw [ih y (lt_trans hx hylt)
        (fun m hm => hpos m (List.mem_cons_of_mem _ hm)) hchain']
      rfl
    · rw [abs_of_nonneg (by linarith), not_le, lt_div_iff₀ hx]
      nlinarith

theorem clusterGo_singletons_neg {tol : ℚ} (htol : tol < 0) :
    ∀ (rest : List ℚ) (x : ℚ), 0 < x → (∀ m ∈ rest, 0 < m) →
      clusterGo tol [x] x rest = (x :: rest).map (fun m => [m]) := by
  intro rest
  induction rest with
  | nil => intro x _ _; rfl
  | cons y rest' ih =>
    intro x hx hpos
    have hy : 0 < y := hpos y (List.mem_cons_self _ _)
    rw [clusterGo, if_neg ?_]
    · rw [ih y hy (fun m hm => hpos m (List.mem_cons_of_mem _ hm))]
      rfl
    · rw [not_le]
      calc tol < 0 := htol
        _ ≤ |y - x| / x := div_nonneg (abs_nonneg _) (le_of_lt hx)

theorem mean_singleton (m : ℚ) : mean [m] = m := by
  simp [mean]

theorem map_mean_singletons (l : List ℚ) :
    (l.map (fun m => [m])).map mean = l := by
  rw [List.map_map]
  have : (mean ∘ fun m => [m]) = id := by
    funext m
    exact mean_singleton m
  rw [this, List.map_id]

theorem cluster_levels_neg_tol {tol : ℚ} (htol : tol < 0) (l : List ℚ)
    (hpos : ∀ x ∈ l, 0 < x) : cluster_levels l tol = sortAsc l := by
  unfold cluster_levels
  rcases hs : sortAsc l with _ | ⟨l0, rest⟩
  · rfl
  · have hmem : ∀ x ∈ l0 :: rest, 0 < x := by
      intro x hx
      exact hpos x ((sortAsc_perm l).subset (hs ▸ hx))
    dsimp only
    rw [clusterGo_singletons_neg htol rest l0
      (hmem l0 (List.mem_cons_self _ _))
      (fun m hm => hmem m (List.mem_cons_of_mem _ hm))]
    exact map_mean_singletons _

/-- C6 (amended): on lists of strictly positive levels — prices, as the
levels always are in this pipeline — `_cluster_levels` is idempotent for
every tolerance: re-clustering its own output returns it unchanged.
(On lists containing non-positive levels the claim fails; see the
counterexample.) -/
theorem cluster_levels_idempotent (levels : List ℚ) (tolerance : ℚ)
    (hpos : ∀ x ∈ levels, 0 < x) :
    cluster_levels (cluster_levels levels tolerance) tolerance =
      cluster_levels levels tolerance := by
  rcases lt_or_le tolerance 0 with htol | htol
  · have hpos' : ∀ x ∈ sortAsc levels, 0 < x := by
      intro x hx
      exact hpos x ((sortAsc_perm levels).subset hx)
    rw [cluster_levels_neg_tol htol levels hpos,
      cluster_levels_neg_tol htol (sortAsc levels) hpos']
    exact List.Sorted.insertionSort_eq (sortAsc_sorted levels)
  · obtain ⟨hposm, hchain, _⟩ := cluster_levels_sep levels tolerance hpos
    have hsorted : (cluster_levels levels tolerance).Sorted (· ≤ ·) := by
      rw [List.Sorted, ← List.chain'_iff_pairwise]
      exact chain_imp_of_pos (fun a b _ _ hr => hr.2) hposm hchain
    rcases hcase : cluster_levels levels tolerance with _ | ⟨m0, mrest⟩
    · rfl
    · rw [hcase] at hsorted hchain hposm
      unfold cluster_levels
      rw [show sortAsc (m0 :: mrest) = m0 :: mrest from
        List.Sorted.insertionSort_eq hsorted]
      dsimp only
      rw [clusterGo_singletons_nonneg htol mrest m0
        (hposm m0 (List.mem_cons_self _ _))
        (fun m hm => hposm m (List.mem_cons_of_mem _ hm)) hchain]
      exact map_mean_singletons _

/-- C6 witness: idempotence at the concrete positive level list
`[95, 96, 110]` with the default tolerance. -/
theorem cluster_levels_idempotent_witness :
    cluster_levels (cluster_levels [95, 96, 110] (3/200)) (3/200) =
      cluster_levels [95, 96, 110] (3/200) :=
  cluster_levels_idempotent [95, 96, 110] (3/200) (by decide)

/-- C6 counterexample: for the level list `[-10, 1, 5]` (tolerance 1.5%)
one pass clusters to `[-4.5, 5]`, but a second pass merges everything into
`[0.25]` — the division by a negative cluster representative makes the
proximity test vacuously true — so clustering is not idempotent on
arbitrary level lists. -/
theorem cluster_levels_not_idempotent_cex :
    cluster_levels (cluster_levels [-10, 1, 5] (3/200)) (3/200) ≠
      cluster_levels [-10, 1, 5] (3/200) := by decide

/-- C10: on every list of strictly positive levels and nonnegative
tolerance, the clustered output is strictly ascending, every consecutive
pair of output values differs by more than the tolerance relative to the
earlier value, and the output is empty exactly when the input is. -/
theorem cluster_levels_output_invariant (levels : List ℚ) (tolerance : ℚ)
    (hpos : ∀ x ∈ levels, 0 < x) (htol : 0 ≤ tolerance) :
    (cluster_levels levels tolerance).Pairwise (· < ·) ∧
    (cluster_levels levels tolerance).Chain'
      (fun a b => tolerance < (b - a) / a) ∧
    (cluster_levels levels tolerance = [] ↔ levels = []) := by
  obtain ⟨hposm, hchain, hiff⟩ := cluster_levels_sep levels tolerance hpos
  refine ⟨?_, ?_, hiff⟩
  · rw [← List.chain'_iff_pairwise]
    refine chain_imp_of_pos (fun a b ha _ hr => ?_) hposm hchain
    nlinarith [hr.1]
  · refine chain_imp_of_pos (fun a b ha _ hr => ?_) hposm hchain
    rw [lt_div_iff₀ ha]
    nlinarith [hr.1]

/-- C10 witness: the output invariant at the concrete input
`[100, 101, 110]` (which clusters to `[100.5, 110]`). -/
theorem cluster_levels_output_invariant_witness :
    (cluster_levels [100, 101, 110] (3/200)).Pairwise (· < ·) ∧
    (cluster_levels [100, 101, 110] (3/200)).Chain'
      (fun a b => (3/200 : ℚ) < (b - a) / a) ∧
    (cluster_levels [100, 101, 110] (3/200) = [] ↔
      ([100, 101, 110] : List ℚ) = []) :=
  cluster_levels_output_invariant [100, 101, 110] (3/200) (by decide)
    (by norm_num)

/-- C2: on any frame of at least 50 rows whose latest row fails one of the
three hard filters, `detect_signals` returns the filter-failed record (the
dict with `passed=false`, `reason="filter_failed"` and the filter map) —
no signal evaluation happens on that path and no exception is raised (the
function is total and returns this value). -/
theorem detect_signals_filter_gate (df : List Row)
    (hlen : 50 ≤ df.length)
    (hfail : (filtersOf (latestRow df)).allTrue = false) :
    detect_signals df = .filter_failed (filtersOf (latestRow df)) := by
  unfold detect_signals
  rw [if_neg (by omega)]
  simp [hfail]

/-- C2 witness: a 50-row frame whose close (10) is below `MIN_PRICE` and
whose indicator columns are NaN fails all three filters concretely. -/
theorem detect_signals_filter_gate_witness :
    detect_signals c2df = .filter_failed (filtersOf (latestRow c2df)) :=
  detect_signals_filter_gate c2df (by decide) (by decide)

theorem macdCrossAt_iff (df : List Row) (k : ℕ) (hk : 1 ≤ k)
    (hlen : k < df.length) :
    macdCrossAt df k = true ↔
      ∃ curr prev_row, df.get? (df.length - k) = some curr ∧
        df.get? (df.length - (k + 1)) = some prev_row ∧
        ∃ cm cs pm ps, curr.MACD = some cm ∧ curr.MACD_Signal = some cs ∧
          prev_row.MACD = some pm ∧ prev_row.MACD_Signal = some ps ∧
          pm ≤ ps ∧ cs < cm := by
  unfold macdCrossAt
  rw [if_pos (by simp only [Bool.and_eq_true, decide_eq_true_eq]; omega)]
  have h1 : df.length - k < df.length := by omega
  have h2 : df.length - (k + 1) < df.length := by omega
  obtain ⟨curr, hcurr⟩ : ∃ c, df.get? (df.length - k) = some c :=
    ⟨_, List.get?_eq_get h1⟩
  obtain ⟨prevR, hprev⟩ : ∃ c, df.get? (df.length - (k + 1)) = some c :=
    ⟨_, List.get?_eq_get h2⟩
  rw [hcurr, hprev]
  dsimp only
  simp only [Option.some.injEq, exists_eq_left']
  rcases hA : curr.MACD with _ | cm <;>
    rcases hB : curr.MACD_Signal with _ | cs <;>
    rcases hC : prevR.MACD with _ | pm <;>
    rcases hD : prevR.MACD_Signal with _ | ps <;>
    (simp [hA, hB, hC, hD, Bool.and_eq_true, decide_eq_true_eq]; try tauto)

/-- C7: on any frame of at least 50 rows whose latest MACD and MACD signal
values are present, the `macd_crossover` signal is true exactly when a
bullish cross — previous bar's MACD at or below its signal, current bar's
MACD strictly above its signal, all four values present — occurred at one
of the 3 most recent bars (`k` bars from the end, `k = 1, 2, 3`); the
Python loop's early `break` only stops the scan at the first hit and does
not change this value. -/
theorem macd_crossover_window_iff (df : List Row)
    (hlen : 50 ≤ df.length)
    (hm : (latestRow df).MACD.isSome = true)
    (hs : (latestRow df).MACD_Signal.isSome = true) :
    macd_crossoverOf df (latestRow df) = true ↔
      ∃ k, 1 ≤ k ∧ k ≤ 3 ∧ ∃ curr prev_row,
        df.get? (df.length - k) = some curr ∧
        df.get? (df.length - (k + 1)) = some prev_row ∧
        ∃ cm cs pm ps, curr.MACD = some cm ∧ curr.MACD_Signal = some cs ∧
          prev_row.MACD = some pm ∧ prev_row.MACD_Signal = some ps ∧
          pm ≤ ps ∧ cs < cm := by
  obtain ⟨m, hm'⟩ := Option.isSome_iff_exists.mp hm
  obtain ⟨s, hs'⟩ := Option.isSome_iff_exists.mp hs
  unfold macd_crossoverOf
  rw [hm', hs']
  dsimp only
  rw [Bool.or_eq_true, Bool.or_eq_true]
  constructor
  · rintro ((h3 | h2) | h1)
    · exact ⟨3, by omega, by omega,
        (macdCrossAt_iff df 3 (by omega) (by omega)).mp h3⟩
    · exact ⟨2, by omega, by omega,
        (macdCrossAt_iff df 2 (by omega) (by omega)).mp h2⟩
    · exact ⟨1, by omega, by omega,
        (macdCrossAt_iff df 1 (by omega) (by omega)).mp h1⟩
  · rintro ⟨k, hk1, hk3, hrest⟩
    interval_cases k
    · exact Or.inr ((macdCrossAt_iff df 1 (by omega) (by omega)).mpr hrest)
    · exact Or.inl (Or.inr
        ((macdCrossAt_iff df 2 (by omega) (by omega)).mpr hrest))
    · exact Or.inl (Or.inl
        ((macdCrossAt_iff df 3 (by omega) (by omega)).mpr hrest))

/-- C7 witness: the crossover-window characterization at a concrete 50-row
frame with a bullish cross on the last bar. -/
theorem macd_crossover_window_iff_witness :
    macd_crossoverOf c7df (latestRow c7df) = true ↔
      ∃ k, 1 ≤ k ∧ k ≤ 3 ∧ ∃ curr prev_row,
        c7df.get? (c7df.length - k) = some curr ∧
        c7df.get? (c7df.length - (k + 1)) = some prev_row ∧
        ∃ cm cs pm ps, curr.MACD = some cm ∧ curr.MACD_Signal = some cs ∧
          prev_row.MACD = some pm ∧ prev_row.MACD_Signal = some ps ∧
          pm ≤ ps ∧ cs < cm :=
  macd_crossover_window_iff c7df (by decide) (by decide) (by decide)

theorem lookup_setCols_ne (cols : List (String × Column)) (n m : String)
    (v : Column) (h : ¬ n = m) :
    lookupCols (setCols cols n v) m = lookupCols cols m := by
  induction cols with
  | nil => simp [setCols, lookupCols, h]
  | cons p rest ih =>
    obtain ⟨pn, pv⟩ := p
    by_cases h1 : pn = n
    · subst h1
      simp [setCols, lookupCols, h]
    · simp [setCols, lookupCols, h1, ih]

theorem col?_set_ne {f : RawFrame} {n m : String} {v : Column}
    (h : ¬ n = m) : (f.set n v).col? m = f.col? m :=
  lookup_setCols_ne f.cols n m v h

/-- C3 (amended): `compute_indicators` fails exactly when one of the four
columns it actually reads — `Close`, `High`, `Low` or `Volume` — is
missing, and the failure is the pandas `KeyError` naming one of those
columns (the repository defines no `InvalidInputError`). A frame missing
only `Open` is not rejected: `compute_indicators` never reads `Open`. -/
theorem compute_indicators_missing_required (df : RawFrame) :
    ((∃ e, compute_indicators df = .error e) ↔
      (df.col? "Close" = none ∨ df.col? "High" = none ∨
        df.col? "Low" = none ∨ df.col? "Volume" = none)) ∧
    ∀ e, compute_indicators df = .error e →
      e = .KeyError "Close" ∨ e = .KeyError "High" ∨
        e = .KeyError "Low" ∨ e = .KeyError "Volume" := by
  unfold compute_indicators
  dsimp only
  rcases hc : df.col? "Close" with _ | closeCol
  · simp [hc]
  · dsimp only
    repeat rw [col?_set_ne (by decide)]
    rcases hh : df.col? "High" with _ | highCol
    · simp [hc, hh]
    · dsimp only
      rcases hl : df.col? "Low" with _ | lowCol
      · simp [hc, hh, hl]
      · dsimp only
        repeat rw [col?_set_ne (by decide)]
        rcases hv : df.col? "Volume" with _ | volCol
        · simp [hc, hh, hl, hv]
        · simp [hc, hh, hl, hv]

/-- C3 counterexample: a frame with `High`, `Low`, `Close`, `Volume` but no
`Open` column is enriched without any error, refuting the claim that a
missing `Open` (one of the five "required" columns) makes
`compute_indicators` fail. -/
theorem compute_indicators_no_open_cex :
    noOpenFrame.col? "Open" = none ∧
    ∃ out, compute_indicators noOpenFrame = .ok out :=
  ⟨rfl, ⟨_, rfl⟩⟩

/-- C3 witness: the missing-column characterization applied at the empty
frame, whose enrichment fails. -/
theorem compute_indicators_missing_required_witness :
    ∃ e, compute_indicators (RawFrame.mk []) = .error e :=
  (compute_indicators_missing_required ⟨[]⟩).1.mpr (Or.inl rfl)

theorem store_read_write_self {s : Store} {r : ℕ} (f : RawFrame)
    (h : r < s.length) : Store.read (Store.write s r f) r = f := by
  simp [Store.read, Store.write, List.getElem?_set_eq_of_lt f h]

theorem store_read_write_ne {s : Store} {r r' : ℕ} (f : RawFrame)
    (h : r ≠ r') : Store.read (Store.write s r f) r' = Store.read s r' := by
  simp [Store.read, Store.write, List.getElem?_set_ne h]

theorem store_read_append {s : Store} {r : ℕ} (f : RawFrame)
    (h : r < s.length) : Store.read (s ++ [f]) r = Store.read s r := by
  simp [Store.read, List.getElem?_append_left h]

theorem store_read_concat (s : Store) (f : RawFrame) :
    Store.read (s ++ [f]) s.length = f := by
  simp [Store.read, List.getElem?_concat_length]

theorem store_write_write (s : Store) (r : ℕ) (f g : RawFrame) :
    Store.write (Store.write s r f) r g = Store.write s r g := by
  simp [Store.write, List.set_set]

theorem store_rw1 (s : Store) (F f : RawFrame) :
    Store.read (Store.write (s ++ [F]) s.length f) s.length = f :=
  store_read_write_self f (by simp)

/-- With the heap explicit, `compute_indicators` is exactly: evaluate the
pure enrichment of the caller's frame, and on success place it in the
freshly allocated copy — the one allocated by `df.copy()` — leaving every
pre-existing object untouched. -/
theorem compute_indicators_st_spec (s : Store) (dfRef : ℕ) :
    compute_indicators_st s dfRef =
      match compute_indicators (Store.read s dfRef) with
      | .ok out => .ok ((s ++ [Store.read s dfRef]).set s.length out, s.length)
      | .error e => .error e := by
  unfold compute_indicators_st compute_indicators
  simp only [Store.alloc]
  rw [store_read_concat]
  rcases hc : (Store.read s dfRef).col? "Close" with _ | closeCol
  · rfl
  · dsimp only
    repeat first
      | rw [store_write_write]
      | rw [store_rw1]
    split
    · rfl
    · try dsimp only
      split
      · rfl
      · try dsimp only
        repeat first
          | rw [store_write_write]
          | rw [store_rw1]
        split
        · rfl
        · try dsimp only
          repeat first
            | rw [store_write_write]
            | rw [store_rw1]
          rfl

/-- C9: `compute_indicators` never mutates its input frame: running it on
a heap with the caller's object at `dfRef`, the object at `dfRef` holds the
same value after the call, the returned reference is a different (fresh)
object, and that object holds the pure enrichment of the input — an
enriched copy. -/
theorem compute_indicators_no_mutation (s : Store) (dfRef : ℕ)
    (href : dfRef < s.length) (s' : Store) (r' : ℕ)
    (h : compute_indicators_st s dfRef = .ok (s', r')) :
    Store.read s' dfRef = Store.read s dfRef ∧ r' ≠ dfRef ∧
    compute_indicators (Store.read s dfRef) = .ok (Store.read s' r') := by
  rw [compute_indicators_st_spec s dfRef] at h
  rcases hout : compute_indicators (Store.read s dfRef) with e | out
  · rw [hout] at h
    exact Except.noConfusion h
  · rw [hout] at h
    dsimp only at h
    injection h with h1
    obtain ⟨hs', hr'⟩ := Prod.mk.injEq .. |>.mp h1
    subst hs'
    subst hr'
    have hne : s.length ≠ dfRef := by omega
    refine ⟨?_, fun hcontra => hne hcontra, ?_⟩
    · calc Store.read (Store.write (s ++ [Store.read s dfRef]) s.length out) dfRef
          = Store.read (s ++ [Store.read s dfRef]) dfRef :=
            store_read_write_ne out hne
        _ = Store.read s dfRef := store_read_append _ href
    · have hro : Store.read (List.set (s ++ [Store.read s dfRef])
          s.length out) s.length = out := store_read_write_self out (by simp)
      rw [hro]

/-- C9 witness: the no-mutation theorem applied to a one-object heap
holding a concrete OHLCV frame. -/
theorem compute_indicators_no_mutation_witness :
    Store.read c9resStore 0 = Store.read [fullFrame] 0 ∧ c9resRef ≠ 0 ∧
    compute_indicators (Store.read [fullFrame] 0) =
      .ok (Store.read c9resStore c9resRef) :=
  compute_indicators_no_mutation [fullFrame] 0 (by decide) c9resStore
    c9resRef (by rfl)

/-- C8: on the spec scenario (supports `[95.0]`, resistances `[110.0]`,
close `97.0`, atr `2.0`) the computed plan has entry 97 (no snap),
stop-loss `max(97 - 3, 94.525) = 94.525`, risk `2.475`, target_1 `101.95`,
target_2 = primary target `110`, reward `13`, risk-reward `13/2.475`
(rounded field `5.25`), and a plan is returned — the `MIN_RISK_REWARD`
gate passes. -/
theorem compute_levels_spec_scenario :
    compute_levels_raw c8input =
      some ⟨97, 94.525, 101.95, 110, 110, 2.475, 13, 520/99⟩ ∧
    (compute_levels c8input).map Plan.risk_reward = some 5.25 ∧
    compute_levels c8input ≠ none := by decide

end SwingScreener
